import Mathlib

/-!
Shallow embedding of the mixer bootstrap code generator
(package `bootstrapgen`): the semantic data model, the template helper
functions, and the `Generate` pipeline, together with theorems checking
the specification's claims against the embedded code.

External collaborators (descriptor deserialization, the model builder,
template execution, source formatting, import fixing and the file system)
are modelled as oracle functions carried in an `Env` record; the
orchestration logic, helper functions and error construction are
translated directly from the source.
-/

namespace Bootstrapgen

/-- TypeInfo mirrors `modelgen.TypeInfo` as the generator uses it: a
canonical type name (possibly pointer-marked), value-type,
resource-message and map flags, the nested map value type (present iff
`IsMap` on well-formed values) and an optional import path. -/
inductive TypeInfo where
  | mk (Name : String) (IsValueType : Bool) (IsResourceMessage : Bool)
      (IsMap : Bool) (MapValue : Option TypeInfo) (Import : String)

def TypeInfo.Name : TypeInfo → String
  | .mk n _ _ _ _ _ => n

def TypeInfo.IsValueType : TypeInfo → Bool
  | .mk _ v _ _ _ _ => v

def TypeInfo.IsResourceMessage : TypeInfo → Bool
  | .mk _ _ r _ _ _ => r

def TypeInfo.IsMap : TypeInfo → Bool
  | .mk _ _ _ m _ _ => m

def TypeInfo.MapValue : TypeInfo → Option TypeInfo
  | .mk _ _ _ _ mv _ => mv

def TypeInfo.Import : TypeInfo → String
  | .mk _ _ _ _ _ i => i

/-- Dereference of the `MapValue` pointer; on well-formed values it is
present whenever `IsMap` holds, so the default is never reached there. -/
def TypeInfo.mapValueD (ti : TypeInfo) : TypeInfo :=
  ti.MapValue.getD (.mk "" false false false none "")

/-- Code: `return ti.IsValueType || ti.IsResourceMessage || ti.IsMap &&
(ti.MapValue.IsValueType || ti.MapValue.IsResourceMessage)`.  The map
value is inspected only when `IsMap` holds (Go short-circuits); a missing
map value is modelled as yielding `false`. -/
def containsValueTypeOrResMsg (ti : TypeInfo) : Bool :=
  ti.IsValueType || ti.IsResourceMessage ||
    (ti.IsMap && (match ti.MapValue with
      | some mv => mv.IsValueType || mv.IsResourceMessage
      | none => false))

/-- Source constant `fullGoNameOfValueTypePkgName`. -/
def fullGoNameOfValueTypePkgName : String := "istio_mixer_v1_config_descriptor."

/-- Source table `primitiveToValueType`, key order as written.  The
right-hand sides come from the external value-type enum, whose `String()`
method yields the enum constant's name. -/
def primitiveToValueType : List (String × String) :=
  [("string", fullGoNameOfValueTypePkgName ++ "STRING"),
   ("bool", fullGoNameOfValueTypePkgName ++ "BOOL"),
   ("int64", fullGoNameOfValueTypePkgName ++ "INT64"),
   ("float64", fullGoNameOfValueTypePkgName ++ "DOUBLE"),
   ("[]byte", fullGoNameOfValueTypePkgName ++ "IP_ADDRESS"),
   ("time.Duration", fullGoNameOfValueTypePkgName ++ "DURATION"),
   ("time.Time", fullGoNameOfValueTypePkgName ++ "TIMESTAMP")]

/-- Go map indexing over an association list, returning the string zero
value `""` for a missing key (also used for `fdsFiles[fdsPath]`). -/
def lookupLabel : List (String × String) → String → String
  | [], _ => ""
  | (k, v) :: rest, key => if k = key then v else lookupLabel rest key

/-- Template helper `getValueType`: `primitiveToValueType[goType.Name]`,
the zero value `""` when the name is unmapped. -/
def getValueType (goType : TypeInfo) : String :=
  lookupLabel primitiveToValueType goType.Name

/-- Source helper `contains(s []string, e string)`. -/
def contains (s : List String) (e : String) : Bool :=
  match s with
  | [] => false
  | a :: rest => if a = e then true else contains rest e

/-- Application of the source format string `goImportFmt = "\"%s\""` via
`fmt.Sprintf`. -/
def goImportFmt (s : String) : String := "\"" ++ s ++ "\""

/-- Template helper `reportTypeUsed`: returns the empty string and the
updated render-scoped import accumulator (the Go closure's `imprts`). -/
def reportTypeUsed (imprts : List String) (ti : TypeInfo) : String × List String :=
  if 0 < ti.Import.length then
    let imprt := goImportFmt ti.Import
    if !(contains imprts imprt) then ("", imprts ++ [imprt]) else ("", imprts)
  else ("", imprts)

/-- Accumulated import list after a render pass whose `reportTypeUsed`
invocations are given, in order, by `trace`. -/
def renderImports (trace : List TypeInfo) : List String :=
  trace.foldl (fun acc ti => (reportTypeUsed acc ti).2) []

/-- Leading run of `*` removed, the rest untouched. -/
def dropStars : List Char → List Char
  | [] => []
  | c :: rest => if c = '*' then dropStars rest else c :: rest

/-- Model of `strings.Trim(s, "*")`: remove all leading and all trailing
`*` code points. -/
def trimStars (s : String) : String :=
  String.mk ((dropStars (dropStars s.toList).reverse).reverse)

/-- Template helper `getTypeName`: `strings.Trim(goType.Name, "*")`. -/
def getTypeName (goType : TypeInfo) : String := trimStars goType.Name

/-- Source constant: the placeholder token replaced by the import list. -/
def additionalImportsPlaceholder : String := "$$additional_imports$$"

/-- Model of `bytes.Replace(s, old, new, 1)`: replace the first
occurrence of `old` in `s` by `new`. -/
def replaceFirst (s old new : List Char) : List Char :=
  match s with
  | [] => if old.isEmpty then new else []
  | c :: rest =>
    if old.isPrefixOf (c :: rest) then new ++ (c :: rest).drop old.length
    else c :: replaceFirst rest old new

/-- Import injection step of `Generate`: the placeholder's first
occurrence is replaced by the newline-joined accumulated import list. -/
def injectImports (buf : String) (imprts : List String) : String :=
  String.mk (replaceFirst buf.toList additionalImportsPlaceholder.toList
    (String.intercalate "\n" imprts).toList)

/-- Model of `getParentDirName`:
`filepath.Base(filepath.Dir(filePath))` for slash-separated paths. -/
def getParentDirName (filePath : String) : String :=
  let parts := filePath.splitOn "/"
  if 2 ≤ parts.length then parts.getD (parts.length - 2) "" else "."

/-- Substring test on character lists (used to state what an error
message does or does not mention). -/
def listHasSub : List Char → List Char → Bool
  | needle, [] => needle.isEmpty
  | needle, c :: rest => needle.isPrefixOf (c :: rest) || listHasSub needle rest

/-- Byte-order-compatible lexicographic comparison of character lists
(UTF-8 byte order agrees with code-point order), modelling the string
order used by `sort.Strings`. -/
def charListLe : List Char → List Char → Bool
  | [], _ => true
  | _ :: _, [] => false
  | a :: as, b :: bs => if a = b then charListLe as bs else decide (a < b)

/-- Lexicographic string comparison, as used by `sort.Strings`. -/
def strLe (a b : String) : Bool := charListLe a.toList b.toList

/-- Propositional form of `strLe`, for use with `List.insertionSort`. -/
def strLeProp (a b : String) : Prop := strLe a b = true

instance : DecidableRel strLeProp := fun a b => instDecidableEqBool (strLe a b) true

/-- Model of `sort.Strings`: sort lexicographically. -/
def sortStrings (l : List String) : List String := List.insertionSort strLeProp l

/-- Opaque deserialized descriptor set (collaborator data). -/
structure FileDescriptorSet where
  raw : String
  deriving DecidableEq

/-- Opaque handle produced by `modelgen.CreateFileDescriptorSetParser`. -/
structure FileDescriptorSetParser where
  raw : String
  deriving DecidableEq

/-- MessageInfo: one message's generation-relevant shape, consumed
opaquely by the template; only its name matters to this embedding. -/
structure MessageInfo where
  Name : String
  deriving DecidableEq

/-- Model: one descriptor set's result from the model builder. -/
structure Model where
  TemplateMessage : MessageInfo
  ResourceMessages : List MessageInfo
  deriving DecidableEq

/-- Render context handed to the template. -/
structure BootstrapModel where
  PkgName : String
  TemplateModels : List Model

/-- Generator configuration, as in the source. -/
structure Generator where
  OutFilePath : String
  ImportMapping : List (String × String)

/-- File system state: output path contents, as an association list. -/
abbrev FS := List (String × String)

def fsErase (fs : FS) (p : String) : FS :=
  fs.filter (fun kv => !(kv.fst == p))

/-- Model of `os.Create` (truncate) followed later by a full write. -/
def fsWrite (fs : FS) (p c : String) : FS := (p, c) :: fsErase fs p

def fsGet : FS → String → Option String
  | [], _ => none
  | (k, v) :: rest, p => if k = p then some v else fsGet rest p

/-- Oracle functions for the external collaborators and effect points of
`Generate`: template parsing and execution, file reading, proto
unmarshaling, the model builder, `format.Source`, `imports.Process`
(format-only, local prefix fixed by the code) and the file-system
operations that can fail.  `templateExec` returns the rendered buffer
(still holding the placeholder) together with the ordered trace of
`reportTypeUsed` invocations the execution performed. -/
structure Env where
  parseTemplateErr : Option String
  templateExec : BootstrapModel → Except String (String × List TypeInfo)
  readFile : String → Except String String
  unmarshal : String → Except String FileDescriptorSet
  fdsText : FileDescriptorSet → String
  createParser : FileDescriptorSet → List (String × String) → String →
    Except String FileDescriptorSetParser
  createModel : FileDescriptorSetParser → Except String Model
  formatSource : String → Except String String
  importsProcess : String → String → Except String String
  createFile : Option String
  writeFile : Option String

/-- Source `getFileDescSet`: read the file, then unmarshal the bytes. -/
def getFileDescSet (env : Env) (path : String) : Except String FileDescriptorSet :=
  match env.readFile path with
  | .error e => .error e
  | .ok bs => env.unmarshal bs

/-- The model-building loop of `Generate` over the sorted path list.
On a `getFileDescSet` failure the code formats the still-nil `fds`
pointer (printed `<nil>`) into the message; on a parser-construction
failure it formats the parsed descriptor set; a `modelgen.Create` error
is returned unwrapped. -/
def buildModels (env : Env) (importMapping : List (String × String))
    (label : String → String) : List String → Except String (List Model)
  | [] => .ok []
  | p :: rest =>
    match getFileDescSet env p with
    | .error e =>
      .error ("cannot parse file '<nil>' as a FileDescriptorSetProto. " ++ e)
    | .ok fds =>
      match env.createParser fds importMapping (label p) with
      | .error e =>
        .error ("cannot parse file '" ++ env.fdsText fds ++
          "' as a FileDescriptorSetProto. " ++ e)
      | .ok pr =>
        match env.createModel pr with
        | .error e => .error e
        | .ok model =>
          (buildModels env importMapping label rest).map (fun ms => model :: ms)

/-- The `Generate` pipeline: parse the template, sort the descriptor
paths, build the models, render, inject the accumulated imports into the
placeholder, format, fix imports, then create and write the output file,
removing it again when the write fails. -/
def Generate (env : Env) (g : Generator) (fdsFiles : List (String × String))
    (fs : FS) : FS × Except String Unit :=
  match env.parseTemplateErr with
  | some e => (fs, .error ("cannot load template: " ++ e))
  | none =>
    let fdss := sortStrings (fdsFiles.map Prod.fst)
    match buildModels env g.ImportMapping (lookupLabel fdsFiles) fdss with
    | .error e => (fs, .error e)
    | .ok models =>
      let pkgName := getParentDirName g.OutFilePath
      match env.templateExec ⟨pkgName, models⟩ with
      | .error e =>
        (fs, .error ("cannot execute the template with the given data: " ++ e))
      | .ok (buf, trace) =>
        let bytesWithImpts := injectImports buf (renderImports trace)
        match env.formatSource bytesWithImpts with
        | .error e =>
          (fs, .error ("could not format generated code: " ++ e ++
            ". Source code is " ++ buf))
        | .ok fmtd =>
          match env.importsProcess g.OutFilePath fmtd with
          | .error e =>
            (fs, .error ("could not fix imports for generated code: " ++ e))
          | .ok imptd =>
            match env.createFile with
            | some e => (fs, .error e)
            | none =>
              let fs1 := fsWrite fs g.OutFilePath ""
              match env.writeFile with
              | some e => (fsErase fs1 g.OutFilePath, .error e)
              | none => (fsWrite fs1 g.OutFilePath imptd, .ok ())

theorem charListLe_trans : ∀ {a b c : List Char}, charListLe a b = true →
    charListLe b c = true → charListLe a c = true
  | [], _, _, _, _ => rfl
  | _ :: _, [], _, h, _ => absurd h (by simp [charListLe])
  | _ :: _, _ :: _, [], _, h => absurd h (by simp [charListLe])
  | a :: as, b :: bs, c :: cs, h1, h2 => by
    simp only [charListLe, decide_eq_true_eq] at h1 h2 ⊢
    by_cases hab : a = b
    · subst hab
      rw [if_pos rfl] at h1
      by_cases hac : a = c
      · subst hac
        rw [if_pos rfl] at h2 ⊢
        exact charListLe_trans h1 h2
      · rw [if_neg hac] at h2 ⊢
        exact h2
    · rw [if_neg hab, decide_eq_true_eq] at h1
      by_cases hbc : b = c
      · subst hbc
        rw [if_neg hab]
        exact decide_eq_true h1
      · rw [if_neg hbc, decide_eq_true_eq] at h2
        have hac : a < c := lt_trans h1 h2
        rw [if_neg (ne_of_lt hac)]
        exact decide_eq_true hac

theorem charListLe_total : ∀ (a b : List Char),
    charListLe a b = true ∨ charListLe b a = true
  | [], _ => Or.inl rfl
  | _ :: _, [] => Or.inr rfl
  | a :: as, b :: bs => by
    simp only [charListLe, decide_eq_true_eq]
    by_cases hab : a = b
    · subst hab
      simpa [if_pos rfl] using charListLe_total as bs
    · rcases lt_or_gt_of_ne hab with h | h
      · exact Or.inl (by rw [if_neg hab]; exact decide_eq_true h)
      · exact Or.inr (by rw [if_neg (Ne.symm hab)]; exact decide_eq_true h)

theorem charListLe_antisymm : ∀ {a b : List Char}, charListLe a b = true →
    charListLe b a = true → a = b
  | [], [], _, _ => rfl
  | [], _ :: _, _, h => absurd h (by simp [charListLe])
  | _ :: _, [], h, _ => absurd h (by simp [charListLe])
  | a :: as, b :: bs, h1, h2 => by
    simp only [charListLe, decide_eq_true_eq] at h1 h2
    by_cases hab : a = b
    · subst hab
      rw [if_pos rfl] at h1 h2
      rw [charListLe_antisymm h1 h2]
    · rw [if_neg hab, decide_eq_true_eq] at h1
      rw [if_neg (Ne.symm hab), decide_eq_true_eq] at h2
      exact absurd h2 (not_lt_of_gt h1)

instance : IsTrans String strLeProp :=
  ⟨fun _ _ _ h1 h2 => charListLe_trans h1 h2⟩

instance : IsTotal String strLeProp :=
  ⟨fun a b => charListLe_total a.toList b.toList⟩

instance : IsAntisymm String strLeProp :=
  ⟨fun a b h1 h2 => String.toList_inj.mp (charListLe_antisymm h1 h2)⟩

theorem sortStrings_sorted (l : List String) : (sortStrings l).Sorted strLeProp :=
  List.sorted_insertionSort strLeProp l

theorem sortStrings_perm (l : List String) : (sortStrings l).Perm l :=
  List.perm_insertionSort strLeProp l

/-- The sorted key list depends only on the key multiset: permuting the
input mapping leaves the processing order unchanged. -/
theorem sortStrings_invariant {l1 l2 : List String} (h : l1.Perm l2) :
    sortStrings l1 = sortStrings l2 :=
  List.eq_of_perm_of_sorted
    ((sortStrings_perm l1).trans (h.trans (sortStrings_perm l2).symm))
    (sortStrings_sorted l1) (sortStrings_sorted l2)

/-- Go map lookup depends only on the key-value set when keys are
unique: permuting the association list leaves every lookup unchanged. -/
theorem lookupLabel_perm {l1 l2 : List (String × String)} (h : l1.Perm l2) :
    (l1.map Prod.fst).Nodup → ∀ k, lookupLabel l1 k = lookupLabel l2 k := by
  induction h with
  | nil => exact fun _ _ => rfl
  | cons x h ih =>
    intro hnd k
    obtain ⟨a, b⟩ := x
    simp only [lookupLabel]
    by_cases hak : a = k
    · rw [if_pos hak, if_pos hak]
    · rw [if_neg hak, if_neg hak]
      exact ih (by simpa using hnd.of_cons) k
  | swap x y l =>
    intro hnd k
    obtain ⟨a, b⟩ := x
    obtain ⟨c, d⟩ := y
    have hac : c ≠ a := by
      simp only [List.map_cons, List.nodup_cons, List.mem_cons] at hnd
      exact fun hh => hnd.1 (Or.inl hh)
    simp only [lookupLabel]
    by_cases hck : c = k
    · have hak : a ≠ k := fun hh => hac (hck.trans hh.symm)
      rw [if_pos hck, if_neg hak, if_pos hck]
    · by_cases hak : a = k
      · rw [if_neg hck, if_pos hak, if_pos hak]
      · rw [if_neg hck, if_neg hak, if_neg hak, if_neg hck]
  | trans h1 h2 ih1 ih2 =>
    intro hnd k
    refine (ih1 hnd k).trans (ih2 ?_ k)
    exact ((h1.map Prod.fst).nodup_iff).mp hnd

theorem contains_iff (s : List String) (e : String) : contains s e = true ↔ e ∈ s := by
  induction s with
  | nil => simp [contains]
  | cons a rest ih =>
    simp only [contains]
    by_cases h : a = e
    · simp [h]
    · rw [if_neg h, ih, List.mem_cons]
      constructor
      · exact Or.inr
      · rintro (hh | hh)
        · exact absurd hh.symm h
        · exact hh

theorem reportTypeUsed_fst (acc : List String) (ti : TypeInfo) :
    (reportTypeUsed acc ti).1 = "" := by
  unfold reportTypeUsed
  by_cases h1 : 0 < ti.Import.length
  · rw [if_pos h1]
    by_cases h2 : contains acc (goImportFmt ti.Import) = true
    · simp [h2]
    · simp [Bool.not_eq_true] at h2
      simp [h2]
  · rw [if_neg h1]

/-- Closed-form description of one `reportTypeUsed` step. -/
theorem reportTypeUsed_snd (acc : List String) (ti : TypeInfo) :
    (reportTypeUsed acc ti).2 =
      if 0 < ti.Import.length ∧ goImportFmt ti.Import ∉ acc
      then acc ++ [goImportFmt ti.Import] else acc := by
  unfold reportTypeUsed
  by_cases h1 : 0 < ti.Import.length
  · rw [if_pos h1]
    by_cases h2 : goImportFmt ti.Import ∈ acc
    · have hc : contains acc (goImportFmt ti.Import) = true := (contains_iff _ _).mpr h2
      have hx : ¬(0 < ti.Import.length ∧ goImportFmt ti.Import ∉ acc) :=
        fun hcond => hcond.2 h2
      simp only [hc, Bool.not_true, Bool.false_eq_true, if_false]
      rw [if_neg hx]
    · have hc : contains acc (goImportFmt ti.Import) = false := by
        rw [← Bool.not_eq_true, contains_iff]
        exact h2
      simp only [hc, Bool.not_false, if_true]
      rw [if_pos ⟨h1, h2⟩]
  · have hx : ¬(0 < ti.Import.length ∧ goImportFmt ti.Import ∉ acc) :=
      fun hcond => h1 hcond.1
    rw [if_neg h1, if_neg hx]

theorem reportTypeUsed_nodup {acc : List String} (h : acc.Nodup) (ti : TypeInfo) :
    ((reportTypeUsed acc ti).2).Nodup := by
  rw [reportTypeUsed_snd]
  by_cases hc : 0 < ti.Import.length ∧ goImportFmt ti.Import ∉ acc
  · rw [if_pos hc]
    have hd : acc.Disjoint [goImportFmt ti.Import] := by
      intro x hx hmem
      rw [List.mem_singleton] at hmem
      exact hc.2 (hmem ▸ hx)
    exact h.append (List.nodup_singleton _) hd
  · rw [if_neg hc]
    exact h

theorem foldl_reportTypeUsed_nodup : ∀ (trace : List TypeInfo) (acc : List String),
    acc.Nodup → (trace.foldl (fun a ti => (reportTypeUsed a ti).2) acc).Nodup
  | [], _, h => h
  | t :: ts, acc, h => by
    simp only [List.foldl_cons]
    exact foldl_reportTypeUsed_nodup ts _ (reportTypeUsed_nodup h t)

/-- Reporting an import a second time never changes the accumulator. -/
theorem reportTypeUsed_idem (acc : List String) (ti ti2 : TypeInfo)
    (h : ti2.Import = ti.Import) :
    (reportTypeUsed (reportTypeUsed acc ti).2 ti2).2 = (reportTypeUsed acc ti).2 := by
  by_cases h1 : 0 < ti.Import.length
  · by_cases h2 : goImportFmt ti.Import ∈ acc
    · have e1 : (reportTypeUsed acc ti).2 = acc := by
        rw [reportTypeUsed_snd, if_neg (fun hc => hc.2 h2)]
      rw [e1, reportTypeUsed_snd, if_neg]
      intro hc
      rw [h] at hc
      exact hc.2 h2
    · have e1 : (reportTypeUsed acc ti).2 = acc ++ [goImportFmt ti.Import] := by
        rw [reportTypeUsed_snd, if_pos ⟨h1, h2⟩]
      rw [e1, reportTypeUsed_snd, if_neg]
      intro hc
      rw [h] at hc
      exact hc.2 (by simp)
  · have e1 : (reportTypeUsed acc ti).2 = acc := by
      rw [reportTypeUsed_snd, if_neg (fun hc => h1 hc.1)]
    rw [e1, reportTypeUsed_snd, if_neg]
    intro hc
    rw [h] at hc
    exact h1 hc.1

theorem foldl_replicate_reportTypeUsed : ∀ (n : Nat) (acc : List String)
    (ti : TypeInfo), 0 < n →
    (List.replicate n ti).foldl (fun a t => (reportTypeUsed a t).2) acc =
      (reportTypeUsed acc ti).2 := by
  intro n
  induction n with
  | zero => exact fun _ _ h => absurd h (lt_irrefl 0)
  | succ m ih =>
    intro acc ti _
    rw [List.replicate_succ, List.foldl_cons]
    rcases Nat.eq_zero_or_pos m with hm | hm
    · subst hm
      rfl
    · rw [ih _ ti hm, reportTypeUsed_idem _ _ _ rfl]

theorem mem_foldl_reportTypeUsed : ∀ (trace : List TypeInfo) (acc : List String)
    (e : String), e ∈ trace.foldl (fun a ti => (reportTypeUsed a ti).2) acc →
    e ∈ acc ∨ ∃ ti, ti ∈ trace ∧ 0 < ti.Import.length ∧ e = goImportFmt ti.Import
  | [], _, _, h => Or.inl h
  | t :: ts, acc, e, h => by
    simp only [List.foldl_cons] at h
    rcases mem_foldl_reportTypeUsed ts _ e h with h2 | ⟨ti, hmem, hlen, heq⟩
    · rw [reportTypeUsed_snd] at h2
      by_cases hc : 0 < t.Import.length ∧ goImportFmt t.Import ∉ acc
      · rw [if_pos hc] at h2
        rcases List.mem_append.mp h2 with h3 | h3
        · exact Or.inl h3
        · exact Or.inr ⟨t, List.mem_cons_self _ _, hc.1, List.mem_singleton.mp h3⟩
      · rw [if_neg hc] at h2
        exact Or.inl h2
    · exact Or.inr ⟨ti, List.mem_cons_of_mem _ hmem, hlen, heq⟩

theorem dropStars_decomp : ∀ l : List Char,
    ∃ m, l = List.replicate m '*' ++ dropStars l
  | [] => ⟨0, rfl⟩
  | c :: rest => by
    by_cases h : c = '*'
    · obtain ⟨m, hm⟩ := dropStars_decomp rest
      subst h
      refine ⟨m + 1, ?_⟩
      simp only [dropStars, if_pos rfl]
      rw [List.replicate_succ, List.cons_append]
      exact congrArg _ hm
    · exact ⟨0, by simp [dropStars, h]⟩

theorem dropStars_head : ∀ l : List Char, (dropStars l).head? ≠ some '*'
  | [] => by simp [dropStars]
  | c :: rest => by
    by_cases h : c = '*'
    · rw [show dropStars (c :: rest) = dropStars rest from by simp [dropStars, h]]
      exact dropStars_head rest
    · simp [dropStars, h]

theorem isPrefixOf_append_self : ∀ (l r : List Char), l.isPrefixOf (l ++ r) = true
  | [], _ => by simp [List.isPrefixOf]
  | a :: as, r => by
    simp only [List.cons_append, List.isPrefixOf]
    simp [isPrefixOf_append_self as r]

theorem replaceFirst_cons (c : Char) (rest old new : List Char) :
    replaceFirst (c :: rest) old new =
      if old.isPrefixOf (c :: rest) = true
      then new ++ (c :: rest).drop old.length
      else c :: replaceFirst rest old new := rfl

/-- Replacement at the first occurrence: when `old` occurs nowhere
starting inside `pre`, `replaceFirst` rewrites exactly the occurrence
after `pre`. -/
theorem replaceFirst_at_first (old new : List Char) : ∀ (pre post : List Char),
    (∀ i, i < pre.length →
      old.isPrefixOf ((pre ++ old ++ post).drop i) = false) →
    replaceFirst (pre ++ old ++ post) old new = pre ++ new ++ post := by
  intro pre
  induction pre with
  | nil =>
    intro post _
    simp only [List.nil_append]
    cases old with
    | nil => cases post <;> simp [replaceFirst, List.isPrefixOf]
    | cons a as =>
      rw [List.cons_append, replaceFirst_cons]
      have hp : (a :: as).isPrefixOf (a :: (as ++ post)) = true := by
        have hq := isPrefixOf_append_self (a :: as) post
        rwa [List.cons_append] at hq
      rw [if_pos hp, show (a :: (as ++ post)) = (a :: as) ++ post from
        (List.cons_append _ _ _).symm, List.drop_left]
  | cons c pre ih =>
    intro post h
    have h0 : old.isPrefixOf ((c :: pre ++ old ++ post).drop 0) = false :=
      h 0 (by simp)
    rw [List.drop_zero] at h0
    simp only [List.cons_append] at h0 ⊢
    rw [replaceFirst_cons, h0]
    simp only [Bool.false_eq_true, if_false]
    refine congrArg _ (ih post ?_)
    intro i hi
    have h2 := h (i + 1) (by simpa using Nat.succ_lt_succ hi)
    simp only [List.cons_append, List.drop_succ_cons] at h2
    exact h2

theorem lookupLabel_not_mem (table : List (String × String)) (key : String) :
    key ∉ table.map Prod.fst → lookupLabel table key = "" := by
  induction table with
  | nil => exact fun _ => rfl
  | cons kv rest ih =>
    intro h
    obtain ⟨k, v⟩ := kv
    simp only [List.map_cons, List.mem_cons] at h
    push_neg at h
    simp only [lookupLabel]
    rw [if_neg (fun hh => h.1 hh.symm)]
    exact ih h.2

/-- Depth-two nested map whose innermost value is a value type. -/
def tiDeep : TypeInfo :=
  .mk "map[string]map[string]string" false false true
    (some (.mk "map[string]string" false false true
      (some (.mk "string" true false false none "")) "")) ""

/-- One-level map whose value is a value type. -/
def tiMapVal : TypeInfo :=
  .mk "map[string]string" false false true
    (some (.mk "string" true false false none "")) ""

/-- TypeInfo whose name carries a trailing, non-leading `*`. -/
def tiTrail : TypeInfo := .mk "Foo*" false false false none ""

/-- TypeInfo carrying a non-empty import path. -/
def tiImp : TypeInfo := .mk "Foo" false false false none "pkg/foo"

/-- TypeInfo with a primitive name outside the value-type table. -/
def tiInt32 : TypeInfo := .mk "int32" false false false none ""

/-- C1 counterexample: on a depth-two nested map whose innermost value
is a value type, `containsValueTypeOrResMsg` returns `false` although
the claimed recursive right-hand side evaluates to `true`: the code does
not recurse through nested map value types. -/
theorem c1_counterexample :
    containsValueTypeOrResMsg tiDeep = false ∧
    (tiDeep.IsValueType || tiDeep.IsResourceMessage ||
      (tiDeep.IsMap && containsValueTypeOrResMsg tiDeep.mapValueD)) = true :=
  ⟨rfl, rfl⟩

/-- C1 (amended): `containsValueTypeOrResMsg ti` holds iff
`ti.IsValueType`, or `ti.IsResourceMessage`, or `ti.IsMap` together with
the map value itself being a value type or a resource message — one
level only, with no recursion into deeper map value types. -/
theorem c1_one_level :
    (∀ (ti mv : TypeInfo), ti.MapValue = some mv →
      (containsValueTypeOrResMsg ti = true ↔
        ti.IsValueType = true ∨ ti.IsResourceMessage = true ∨
          (ti.IsMap = true ∧
            (mv.IsValueType = true ∨ mv.IsResourceMessage = true)))) ∧
    (∀ ti : TypeInfo, ti.MapValue = none →
      (containsValueTypeOrResMsg ti = true ↔
        ti.IsValueType = true ∨ ti.IsResourceMessage = true)) := by
  constructor
  · intro ti mv h
    unfold containsValueTypeOrResMsg
    rw [h]
    simp [Bool.or_eq_true, Bool.and_eq_true, or_assoc]
  · intro ti h
    unfold containsValueTypeOrResMsg
    rw [h]
    simp

theorem c1_witness : containsValueTypeOrResMsg tiMapVal = true := by
  have h := c1_one_level.1 tiMapVal (.mk "string" true false false none "") rfl
  exact h.mpr (Or.inr (Or.inr ⟨rfl, Or.inl rfl⟩))

/-- C2 counterexample: `"Foo*"` has no leading pointer marker, yet
`getTypeName` changes it — `strings.Trim` also strips trailing `*`. -/
theorem c2_counterexample :
    tiTrail.Name.toList.head? ≠ some '*' ∧ getTypeName tiTrail ≠ tiTrail.Name :=
  ⟨by decide, by decide⟩

/-- C2 (amended): `getTypeName ti` is `ti.Name` with the maximal leading
run and the maximal trailing run of `*` removed and everything in
between (interior `*` included) preserved; the spec's two examples hold
as stated. -/
theorem c2_trim_both_ends :
    (∀ ti : TypeInfo, ∃ m n : Nat,
      ti.Name.toList =
        List.replicate m '*' ++ (getTypeName ti).toList ++ List.replicate n '*' ∧
      (getTypeName ti).toList.head? ≠ some '*' ∧
      (getTypeName ti).toList.getLast? ≠ some '*') ∧
    getTypeName (.mk "*FooType" false true false none "") = "FooType" ∧
    getTypeName (.mk "FooType" false true false none "") = "FooType" := by
  refine ⟨?_, by decide, by decide⟩
  intro ti
  obtain ⟨m, hm⟩ := dropStars_decomp ti.Name.toList
  obtain ⟨n, hn⟩ := dropStars_decomp (dropStars ti.Name.toList).reverse
  refine ⟨m, n, ?_, ?_, ?_⟩
  · have hd : dropStars ti.Name.toList =
        (dropStars ((dropStars ti.Name.toList).reverse)).reverse ++
          List.replicate n '*' := by
      have h2 := congrArg List.reverse hn
      rwa [List.reverse_reverse, List.reverse_append, List.reverse_replicate] at h2
    conv_lhs => rw [hm]
    rw [hd, ← List.append_assoc]
    rfl
  · rw [show (getTypeName ti).toList =
        (dropStars ((dropStars ti.Name.toList).reverse)).reverse from rfl,
      List.head?_reverse]
    rcases (dropStars ((dropStars ti.Name.toList).reverse)).eq_nil_or_concat
      with he | ⟨ys, y, he⟩
    · rw [he]
      simp
    · have hsome : (dropStars ((dropStars ti.Name.toList).reverse)).getLast? =
          some y := by
        rw [he]
        simp
      have h1 : ((dropStars ti.Name.toList).reverse).getLast? = some y := by
        rw [hn, List.getLast?_append, hsome]
        rfl
      have h2 : (dropStars ti.Name.toList).head? = some y := by
        rw [← List.getLast?_reverse]
        exact h1
      rw [hsome]
      intro hy
      exact dropStars_head ti.Name.toList (h2.trans hy)
  · rw [show (getTypeName ti).toList =
        (dropStars ((dropStars ti.Name.toList).reverse)).reverse from rfl,
      List.getLast?_reverse]
    exact dropStars_head _

/-- C5: `reportTypeUsed` always returns the empty string; it appends the
quoted import exactly when the import is non-empty and not yet recorded
(preserving first-seen order), leaves the accumulator unchanged
otherwise, never creates duplicates, and any positive number of calls
with the same TypeInfo has the effect of a single call. -/
theorem c5_reportTypeUsed_accumulator :
    (∀ (acc : List String) (ti : TypeInfo), (reportTypeUsed acc ti).1 = "") ∧
    (∀ (acc : List String) (ti : TypeInfo), 0 < ti.Import.length →
      goImportFmt ti.Import ∉ acc →
      (reportTypeUsed acc ti).2 = acc ++ [goImportFmt ti.Import]) ∧
    (∀ (acc : List String) (ti : TypeInfo), 0 < ti.Import.length →
      goImportFmt ti.Import ∈ acc → (reportTypeUsed acc ti).2 = acc) ∧
    (∀ (acc : List String) (ti : TypeInfo), ti.Import.length = 0 →
      (reportTypeUsed acc ti).2 = acc) ∧
    (∀ trace : List TypeInfo, (renderImports trace).Nodup) ∧
    (∀ (n : Nat) (acc : List String) (ti : TypeInfo), 0 < n →
      (List.replicate n ti).foldl (fun a t => (reportTypeUsed a t).2) acc =
        (reportTypeUsed acc ti).2) := by
  refine ⟨reportTypeUsed_fst, ?_, ?_, ?_, ?_, foldl_replicate_reportTypeUsed⟩
  · intro acc ti h1 h2
    rw [reportTypeUsed_snd, if_pos ⟨h1, h2⟩]
  · intro acc ti h1 h2
    rw [reportTypeUsed_snd, if_neg (fun hc => hc.2 h2)]
  · intro acc ti h
    rw [reportTypeUsed_snd, if_neg (fun hc => by rw [h] at hc; exact absurd hc.1 (lt_irrefl 0))]
  · exact fun trace => foldl_reportTypeUsed_nodup trace [] List.nodup_nil

theorem c5_witness :
    (reportTypeUsed [] tiImp).2 = [goImportFmt "pkg/foo"] ∧
    (List.replicate 3 tiImp).foldl (fun a t => (reportTypeUsed a t).2) [] =
      (reportTypeUsed [] tiImp).2 := by
  constructor
  · exact c5_reportTypeUsed_accumulator.2.1 [] tiImp (by decide) (by simp)
  · exact c5_reportTypeUsed_accumulator.2.2.2.2.2 3 [] tiImp (by decide)

/-- C7: the value-type table has exactly the seven primitive names, any
name outside the table yields the empty string rather than an error, and
every tabled name yields a non-empty identifier. -/
theorem c7_value_type_lookup :
    primitiveToValueType.map Prod.fst =
      ["string", "bool", "int64", "float64", "[]byte", "time.Duration",
        "time.Time"] ∧
    primitiveToValueType.length = 7 ∧
    (∀ ti : TypeInfo, ti.Name ∉
        ["string", "bool", "int64", "float64", "[]byte", "time.Duration",
          "time.Time"] →
      getValueType ti = "") ∧
    (∀ ti : TypeInfo, ti.Name ∈
        ["string", "bool", "int64", "float64", "[]byte", "time.Duration",
          "time.Time"] →
      getValueType ti ≠ "") := by
  refine ⟨rfl, rfl, ?_, ?_⟩
  · intro ti h
    exact lookupLabel_not_mem primitiveToValueType ti.Name h
  · intro ti h
    unfold getValueType
    simp only [List.mem_cons, List.not_mem_nil, or_false] at h
    rcases h with h | h | h | h | h | h | h <;> rw [h] <;> decide

theorem c7_witness : getValueType tiInt32 = "" :=
  c7_value_type_lookup.2.2.1 tiInt32 (by decide)

/-- C10: every accumulator entry is the import path wrapped in literal
double quotes, originating from a traced `reportTypeUsed` call with a
non-empty import; deduplication is exactly membership of the quoted
string; and the placeholder's first occurrence is replaced by the
newline-joined quoted list. -/
theorem c10_quoted_imports :
    (∀ (acc : List String) (ti : TypeInfo),
      (reportTypeUsed acc ti).2 = acc ∨
      (reportTypeUsed acc ti).2 = acc ++ ["\"" ++ ti.Import ++ "\""]) ∧
    (∀ (trace : List TypeInfo) (e : String), e ∈ renderImports trace →
      ∃ ti, ti ∈ trace ∧ 0 < ti.Import.length ∧
        e = "\"" ++ ti.Import ++ "\"") ∧
    (∀ (acc : List String) (ti : TypeInfo), 0 < ti.Import.length →
      ((reportTypeUsed acc ti).2 = acc ↔ ("\"" ++ ti.Import ++ "\"") ∈ acc)) ∧
    (∀ (pre post : List Char) (imprts : List String),
      (∀ i, i < pre.length →
        additionalImportsPlaceholder.toList.isPrefixOf
          ((pre ++ additionalImportsPlaceholder.toList ++ post).drop i) =
            false) →
      injectImports
          (String.mk (pre ++ additionalImportsPlaceholder.toList ++ post))
          imprts =
        String.mk (pre ++ (String.intercalate "\n" imprts).toList ++ post)) := by
  refine ⟨?_, ?_, ?_, ?_⟩
  · intro acc ti
    rw [reportTypeUsed_snd]
    by_cases hc : 0 < ti.Import.length ∧ goImportFmt ti.Import ∉ acc
    · rw [if_pos hc]
      exact Or.inr rfl
    · rw [if_neg hc]
      exact Or.inl rfl
  · intro trace e h
    rcases mem_foldl_reportTypeUsed trace [] e h with h2 | ⟨ti, hm, hl, he⟩
    · exact absurd h2 (List.not_mem_nil e)
    · exact ⟨ti, hm, hl, he⟩
  · intro acc ti h
    constructor
    · intro heq
      by_contra hmem
      rw [reportTypeUsed_snd, if_pos ⟨h, hmem⟩] at heq
      have h2 := congrArg List.length heq
      simp at h2
    · intro hmem
      rw [reportTypeUsed_snd, if_neg (fun hc => hc.2 hmem)]
  · intro pre post imprts h
    exact congrArg String.mk (replaceFirst_at_first _ _ pre post h)

theorem c10_witness :
    (∃ ti, ti ∈ [tiImp] ∧ 0 < ti.Import.length ∧
      ("\"pkg/foo\"" : String) = "\"" ++ ti.Import ++ "\"") ∧
    injectImports
        (String.mk ("AB".toList ++ additionalImportsPlaceholder.toList ++
          "CD".toList)) ["\"x\""] =
      String.mk ("AB".toList ++ (String.intercalate "\n" ["\"x\""]).toList ++
        "CD".toList) := by
  constructor
  · exact c10_quoted_imports.2.1 [tiImp] "\"pkg/foo\"" (by decide)
  · exact c10_quoted_imports.2.2.2 ("AB".toList) ("CD".toList) ["\"x\""]
      (by decide)

theorem fsGet_fsErase : ∀ (fs : FS) (p : String), fsGet (fsErase fs p) p = none
  | [], _ => rfl
  | (k, v) :: rest, p => by
    by_cases h : k = p
    · rw [show fsErase ((k, v) :: rest) p = fsErase rest p from by
        simp [fsErase, List.filter_cons, h]]
      exact fsGet_fsErase rest p
    · rw [show fsErase ((k, v) :: rest) p = (k, v) :: fsErase rest p from by
        simp [fsErase, List.filter_cons, h]]
      simp only [fsGet]
      rw [if_neg h]
      exact fsGet_fsErase rest p

/-- Environment in which every collaborator succeeds: reading returns
the path itself as bytes, descriptor sets and parsers pass their content
through, every model is built from the parser's content, the template
renders a fixed buffer and reports `tiImp` once, and formatting and the
import-fix pass are the identity. -/
def envOK : Env where
  parseTemplateErr := none
  templateExec := fun _ => .ok ("package x\n$$additional_imports$$\n", [tiImp])
  readFile := fun p => .ok p
  unmarshal := fun b => .ok ⟨b⟩
  fdsText := fun f => f.raw
  createParser := fun f _ _ => .ok ⟨f.raw⟩
  createModel := fun pr => .ok ⟨⟨pr.raw⟩, []⟩
  formatSource := fun s => .ok s
  importsProcess := fun _ s => .ok s
  createFile := none
  writeFile := none

/-- Environment whose formatting stage fails. -/
def envC3 : Env := { envOK with formatSource := fun _ => .error "boom" }

/-- Environment whose proto unmarshaling fails. -/
def envC4 : Env := { envOK with unmarshal := fun _ => .error "unexpected EOF" }

/-- Environment whose file write fails. -/
def envC8 : Env := { envOK with writeFile := some "disk full" }

/-- Generator configuration used by the concrete runs. -/
def genOut : Generator := ⟨"out/dir/file.go", []⟩

/-- Descriptor mapping supplied in reverse-insertion order. -/
def fdsC6 : List (String × String) := [("b.fds", "lb"), ("a.fds", "la")]

/-- C3 counterexample: with one traced import the buffer handed to the
formatter differs from the rendered buffer, and the format-failure error
attaches the rendered (pre-substitution) buffer, not the formatter
input. -/
theorem c3_counterexample :
    (Generate envC3 genOut [("a.fds", "la")] []).2 =
      .error ("could not format generated code: boom. Source code is " ++
        "package x\n$$additional_imports$$\n") ∧
    injectImports "package x\n$$additional_imports$$\n"
        (renderImports [tiImp]) ≠
      "package x\n$$additional_imports$$\n" := by
  constructor
  · rfl
  · decide

/-- C3 (amended): when the formatting stage fails, `Generate` leaves the
file system untouched and returns an error whose attached source text is
the rendered buffer before import substitution; that text equals the
bytes handed to the formatter only when the substitution changed
nothing. -/
theorem c3_format_error_attaches_render_buffer :
    ∀ (env : Env) (g : Generator) (l : List (String × String)) (fs : FS)
      (ms : List Model) (buf : String) (trace : List TypeInfo) (e : String),
      env.parseTemplateErr = none →
      buildModels env g.ImportMapping (lookupLabel l)
        (sortStrings (l.map Prod.fst)) = .ok ms →
      env.templateExec ⟨getParentDirName g.OutFilePath, ms⟩ = .ok (buf, trace) →
      env.formatSource (injectImports buf (renderImports trace)) = .error e →
      Generate env g l fs =
        (fs, .error ("could not format generated code: " ++ e ++
          ". Source code is " ++ buf)) := by
  intro env g l fs ms buf trace e h1 h2 h3 h4
  simp only [Generate, h1, h2, h3, h4]

theorem c3_witness :
    Generate envC3 genOut [("a.fds", "la")] [] =
      ([], .error ("could not format generated code: " ++ "boom" ++
        ". Source code is " ++ "package x\n$$additional_imports$$\n")) :=
  c3_format_error_attaches_render_buffer envC3 genOut [("a.fds", "la")] []
    [⟨⟨"a.fds"⟩, []⟩] "package x\n$$additional_imports$$\n" [tiImp] "boom"
    rfl rfl rfl rfl

/-- C4: when deserializing `bad.fds` fails, the error message formats
the nil descriptor pointer (printed `<nil>`) where the path was meant to
go, so the message does not identify the offending path. -/
theorem c4_error_lacks_path :
    (Generate envC4 genOut [("bad.fds", "lbl")] []).2 =
      .error ("cannot parse file '<nil>' as a FileDescriptorSetProto. " ++
        "unexpected EOF") ∧
    listHasSub "bad.fds".toList
      ("cannot parse file '<nil>' as a FileDescriptorSetProto. " ++
        "unexpected EOF").toList = false := by
  constructor
  · rfl
  · decide

/-- C6: descriptor paths are processed in lexicographic order of the
path strings, independent of the mapping's iteration order, and that
order drives the order in which Models are built. -/
theorem c6_lexicographic_order :
    (∀ l1 l2 : List (String × String), l1.Perm l2 →
      sortStrings (l1.map Prod.fst) = sortStrings (l2.map Prod.fst)) ∧
    (∀ l : List (String × String),
      (sortStrings (l.map Prod.fst)).Sorted strLeProp ∧
      (sortStrings (l.map Prod.fst)).Perm (l.map Prod.fst)) ∧
    sortStrings (fdsC6.map Prod.fst) = ["a.fds", "b.fds"] ∧
    buildModels envOK [] (lookupLabel fdsC6)
        (sortStrings (fdsC6.map Prod.fst)) =
      .ok [⟨⟨"a.fds"⟩, []⟩, ⟨⟨"b.fds"⟩, []⟩] := by
  refine ⟨?_, ?_, rfl, rfl⟩
  · intro l1 l2 h
    exact sortStrings_invariant (h.map Prod.fst)
  · intro l
    exact ⟨sortStrings_sorted _, sortStrings_perm _⟩

theorem c6_witness :
    sortStrings (fdsC6.map Prod.fst) =
      sortStrings ([("a.fds", "la"), ("b.fds", "lb")].map Prod.fst) :=
  c6_lexicographic_order.1 fdsC6 [("a.fds", "la"), ("b.fds", "lb")]
    (List.Perm.swap ("a.fds", "la") ("b.fds", "lb") [])

/-- C8: a model-building failure returns that error with the file system
untouched; every run either leaves the file system untouched, succeeds
with the file fully written, or fails the write with the just-created
file erased; a write failure after all earlier stages succeeded removes
the created file; and the erased output path is indeed absent. -/
theorem c8_failure_isolation :
    (∀ (env : Env) (g : Generator) (l : List (String × String)) (fs : FS)
      (e : String), env.parseTemplateErr = none →
      buildModels env g.ImportMapping (lookupLabel l)
        (sortStrings (l.map Prod.fst)) = .error e →
      Generate env g l fs = (fs, .error e)) ∧
    (∀ (env : Env) (g : Generator) (l : List (String × String)) (fs : FS),
      (Generate env g l fs).1 = fs ∨
      (∃ imptd, Generate env g l fs =
        (fsWrite (fsWrite fs g.OutFilePath "") g.OutFilePath imptd, .ok ())) ∨
      (∃ we, env.writeFile = some we ∧ Generate env g l fs =
        (fsErase (fsWrite fs g.OutFilePath "") g.OutFilePath, .error we))) ∧
    (∀ (env : Env) (g : Generator) (l : List (String × String)) (fs : FS)
      (ms : List Model) (buf : String) (trace : List TypeInfo)
      (fmtd imptd we : String),
      env.parseTemplateErr = none →
      buildModels env g.ImportMapping (lookupLabel l)
        (sortStrings (l.map Prod.fst)) = .ok ms →
      env.templateExec ⟨getParentDirName g.OutFilePath, ms⟩ = .ok (buf, trace) →
      env.formatSource (injectImports buf (renderImports trace)) = .ok fmtd →
      env.importsProcess g.OutFilePath fmtd = .ok imptd →
      env.createFile = none →
      env.writeFile = some we →
      Generate env g l fs =
        (fsErase (fsWrite fs g.OutFilePath "") g.OutFilePath, .error we)) ∧
    (∀ (fs : FS) (p : String), fsGet (fsErase (fsWrite fs p "") p) p = none) := by
  refine ⟨?_, ?_, ?_, ?_⟩
  · intro env g l fs e h1 h2
    simp only [Generate, h1, h2]
  · intro env g l fs
    rcases hpt : env.parseTemplateErr with _ | e1
    case some => simp only [Generate, hpt]; exact Or.inl trivial
    case none =>
    rcases hbm : buildModels env g.ImportMapping (lookupLabel l)
        (sortStrings (l.map Prod.fst)) with e2 | ms
    · simp only [Generate, hpt, hbm]
      exact Or.inl trivial
    · rcases hte : env.templateExec ⟨getParentDirName g.OutFilePath, ms⟩
        with e3 | bt
      · simp only [Generate, hpt, hbm, hte]
        exact Or.inl trivial
      · obtain ⟨buf, trace⟩ := bt
        rcases hfm : env.formatSource (injectImports buf (renderImports trace))
          with e4 | fmtd
        · simp only [Generate, hpt, hbm, hte, hfm]
          exact Or.inl trivial
        · rcases hip : env.importsProcess g.OutFilePath fmtd with e5 | imptd
          · simp only [Generate, hpt, hbm, hte, hfm, hip]
            exact Or.inl trivial
          · rcases hcf : env.createFile with _ | e6
            case some => simp only [Generate, hpt, hbm, hte, hfm, hip, hcf]; exact Or.inl trivial
            case none =>
            rcases hwf : env.writeFile with _ | e7
            · refine Or.inr (Or.inl ⟨imptd, ?_⟩)
              simp only [Generate, hpt, hbm, hte, hfm, hip, hcf, hwf]
            · refine Or.inr (Or.inr ⟨e7, rfl, ?_⟩)
              simp only [Generate, hpt, hbm, hte, hfm, hip, hcf, hwf]
  · intro env g l fs ms buf trace fmtd imptd we h1 h2 h3 h4 h5 h6 h7
    simp only [Generate, h1, h2, h3, h4, h5, h6, h7]
  · intro fs p
    exact fsGet_fsErase _ p

theorem c8_witness :
    Generate envC8 genOut [("a.fds", "la")] [("out/dir/file.go", "old")] =
      (fsErase (fsWrite [("out/dir/file.go", "old")] genOut.OutFilePath "")
        genOut.OutFilePath, .error "disk full") :=
  c8_failure_isolation.2.2.1 envC8 genOut [("a.fds", "la")]
    [("out/dir/file.go", "old")] [⟨⟨"a.fds"⟩, []⟩]
    "package x\n$$additional_imports$$\n" [tiImp]
    "package x\n\"pkg/foo\"\n" "package x\n\"pkg/foo\"\n" "disk full"
    rfl rfl rfl rfl rfl rfl rfl

/-- C9: for a fixed environment (fixed descriptor-file contents and
collaborator behaviour), `Generate` produces identical results however
the input mapping's iteration order presents its entries — the only
source of nondeterminism a Go map introduces. -/
theorem c9_deterministic :
    ∀ (env : Env) (g : Generator) (l1 l2 : List (String × String)) (fs : FS),
      l1.Perm l2 → (l1.map Prod.fst).Nodup →
      Generate env g l1 fs = Generate env g l2 fs := by
  intro env g l1 l2 fs hp hnd
  have hs : sortStrings (l1.map Prod.fst) = sortStrings (l2.map Prod.fst) :=
    sortStrings_invariant (hp.map Prod.fst)
  have hl : lookupLabel l1 = lookupLabel l2 := funext (lookupLabel_perm hp hnd)
  simp only [Generate, hs, hl]

theorem c9_witness :
    Generate envOK genOut [("b.fds", "lb"), ("a.fds", "la")] [] =
      Generate envOK genOut [("a.fds", "la"), ("b.fds", "lb")] [] :=
  c9_deterministic envOK genOut [("b.fds", "lb"), ("a.fds", "la")]
    [("a.fds", "la"), ("b.fds", "lb")] []
    (List.Perm.swap ("a.fds", "la") ("b.fds", "lb") []) (by decide)

end Bootstrapgen
